import Mathlib

/-!
# Verification of the oxidlp job-orchestration engine

Shallow embedding of the download orchestration engine of the `oxidlp`
repository (`src/events.rs`, `src/app.rs`, `src/worker/mod.rs`,
`src/worker/ytdlp.rs`) together with proofs about the spec's claims.

Modelling conventions:
* Rust `String`/`&str` become Lean `String`; `PathBuf` becomes `String`.
* `Uuid` job identifiers become `Nat` (only identity/equality is used).
* `f32`/`f64` values become `ℚ`; the decimal grammar of `str::parse::<f32>`
  is modelled exactly over `ℚ` (without rounding to binary, and without the
  non-finite literals `inf`/`nan`), which is exact on every value the claims
  mention.
* The concurrent coordinator (`WorkerPool::run`) is embedded as a labelled
  small-step transition system; tokio tasks become interleaved task steps.
-/

/-! ## Format entity (`src/events.rs`) -/

/-- `Format` from `src/events.rs` (serde-deserialized yt-dlp format record). -/
structure Format where
  format_id : String
  resolution : Option String := none
  ext : String := ""
  vcodec : Option String := none
  acodec : Option String := none
  filesize : Option Nat := none
  filesize_approx : Option Nat := none
  tbr : Option ℚ := none
  width : Option Nat := none
  height : Option Nat := none
deriving DecidableEq, Repr

/-- `Format::is_video`: `self.vcodec.as_ref().map(|v| v != "none").unwrap_or(false)`. -/
def Format.is_video (f : Format) : Bool :=
  match f.vcodec with
  | some v => v != "none"
  | none => false

/-- `Format::is_audio_only`:
`!self.is_video() && self.acodec.as_ref().map(|a| a != "none").unwrap_or(false)`. -/
def Format.is_audio_only (f : Format) : Bool :=
  !f.is_video && (match f.acodec with
    | some a => a != "none"
    | none => false)

/-- `FormatPopupState` from `src/events.rs` (fields used by `filtered_formats`). -/
structure FormatPopupState where
  job_index : Nat
  formats : List Format
  selected : Nat
  scroll_offset : Nat
  audio_only : Bool
  apply_to_all : Bool
deriving Repr

/-- `FormatPopupState::filtered_formats`: filter by `is_audio_only` when the
audio toggle is set, by `is_video` otherwise. -/
def FormatPopupState.filtered_formats (s : FormatPopupState) : List Format :=
  s.formats.filter (fun f => if s.audio_only then f.is_audio_only else f.is_video)

/-! ## Metadata fetch filtering (`src/worker/ytdlp.rs`, `fetch_formats`) -/

/-- The filter applied by `fetch_formats` to the raw format records parsed from
yt-dlp's JSON: `.filter(|f| f.is_video() && f.height.is_some())`. -/
def fetchFilter (raw : List Format) : List Format :=
  raw.filter (fun f => f.is_video && f.height.isSome)

/-! ## Job entity and status state machine (`src/events.rs`, `src/app.rs`) -/

/-- `JobStatus` from `src/events.rs`. -/
inductive JobStatus where
  | fetchingFormats
  | ready (formats : List Format)
  | queued
  | downloading (percent : ℚ) (speed : String) (eta : String)
  | completed
  | failed (error : String)
  | cancelled
deriving DecidableEq, Repr

/-- `Job` from `src/events.rs`. -/
structure Job where
  id : Nat
  url : String
  title : Option String
  status : JobStatus
  formats : List Format
  selected_format : Option Format
  output_path : Option String
deriving DecidableEq, Repr

/-- The `AppEvent::FormatsReady` arm of `App::handle_event` (`src/app.rs`),
restricted to the matched job: set the title; if the format list is empty set
status `Failed("No formats found")`, otherwise store the formats and set
status `Ready`. -/
def formatsReadyUpdate (title : String) (formats : List Format) (j : Job) : Job :=
  if formats.isEmpty then
    { j with title := some title, status := JobStatus.failed "No formats found" }
  else
    { j with title := some title, formats := formats,
             status := JobStatus.ready formats }

/-- `self.jobs.iter_mut().find(|j| j.id == id)` followed by a mutation:
update the first job matching the predicate, leave the rest unchanged. -/
def updateFirst (p : Job → Bool) (f : Job → Job) : List Job → List Job
  | [] => []
  | j :: rest => if p j then f j :: rest else j :: updateFirst p f rest

/-- `App::handle_event` on `FormatsReady { id, title, formats }`. -/
def applyFormatsReady (jobs : List Job) (id : Nat) (title : String)
    (formats : List Format) : List Job :=
  updateFirst (fun j => j.id == id) (formatsReadyUpdate title formats) jobs

/-! ## Progress line parser (`src/worker/ytdlp.rs`, `parse_progress`) -/

/-- `Progress` from `src/worker/ytdlp.rs` (`percent: f32` modelled as `ℚ`). -/
structure Progress where
  percent : ℚ
  speed : String
  eta : String
deriving DecidableEq, Repr

/-- Rust `str::split_whitespace`: maximal runs of non-whitespace characters,
empty tokens dropped.  (Accumulator holds the current token reversed.) -/
def splitWsAux : List Char → List Char → List String
  | [], acc => if acc.isEmpty then [] else [String.mk acc.reverse]
  | c :: rest, acc =>
    if c.isWhitespace then
      if acc.isEmpty then splitWsAux rest []
      else String.mk acc.reverse :: splitWsAux rest []
    else splitWsAux rest (c :: acc)

/-- Rust `str::split_whitespace` on a string. -/
def splitWhitespace (s : String) : List String :=
  splitWsAux s.toList []

/-- Suffix of `hay` strictly after the first occurrence of `needle`
(i.e. Rust `hay.find(needle)` followed by `hay[idx + needle.len()..]`);
`none` when `needle` does not occur. -/
def firstMatchSuffix (needle : List Char) : List Char → Option (List Char)
  | [] => if needle.isEmpty then some [] else none
  | c :: rest =>
    if needle.isPrefixOf (c :: rest) then some ((c :: rest).drop needle.length)
    else firstMatchSuffix needle rest

/-- Rust `str::contains(&str)`: substring containment. -/
def containsSubstring (hay needle : String) : Bool :=
  (firstMatchSuffix needle.toList hay.toList).isSome

/-- Rust `str::contains(char)` via the character list (kernel-reducible). -/
def containsChar (s : String) (c : Char) : Bool :=
  s.toList.contains c

/-- Rust `str::ends_with(char)` via the character list. -/
def endsWithChar (s : String) (c : Char) : Bool :=
  match s.toList.getLast? with
  | some d => d == c
  | none => false

/-- Rust `str::starts_with(char)` via the character list. -/
def startsWithChar (s : String) (c : Char) : Bool :=
  match s.toList with
  | d :: _ => d == c
  | [] => false

/-- Rust `str::trim`: strip leading and trailing whitespace. -/
def trimString (s : String) : String :=
  String.mk (((s.toList.dropWhile Char.isWhitespace).reverse.dropWhile
    Char.isWhitespace).reverse)

/-- Rust `str::trim_end_matches('%')`: remove every trailing `'%'`. -/
def trimEndPercents (s : String) : String :=
  String.mk ((s.toList.reverse.dropWhile (fun c => c == '%')).reverse)

/-- Digit run to a natural number. -/
def digitsToNat (cs : List Char) : Nat :=
  cs.foldl (fun a c => 10 * a + (c.toNat - 48)) 0

/-- The `Number` part of the grammar accepted by `str::parse::<f32>`:
`Digits | Digits '.' Digits? | '.' Digits`, returned as an exact
numerator/denominator pair (value = `num / den`). -/
def parseDecimal? (cs : List Char) : Option (Nat × Nat) :=
  let intPart := cs.takeWhile Char.isDigit
  let rest := cs.dropWhile Char.isDigit
  match rest with
  | [] => if intPart.isEmpty then none else some (digitsToNat intPart, 1)
  | '.' :: frac =>
    if frac.all Char.isDigit then
      if intPart.isEmpty && frac.isEmpty then none
      else some (digitsToNat intPart * 10 ^ frac.length + digitsToNat frac,
                 10 ^ frac.length)
    else none
  | _ => none

/-- The grammar accepted by `str::parse::<f32>` for finite decimal literals:
optional sign, `Number`, optional `[eE][+-]?Digits` exponent, evaluated
exactly in `ℚ` (the non-finite literals `inf`/`infinity`/`nan` are outside
this model; the rational is built with `mkRat`, so no rounding occurs). -/
def parseFloatChars? (cs : List Char) : Option ℚ :=
  let signAndRest : Int × List Char :=
    match cs with
    | '+' :: r => (1, r)
    | '-' :: r => (-1, r)
    | r => (1, r)
  let sign := signAndRest.1
  let body := signAndRest.2
  let mant := body.takeWhile (fun c => !(c == 'e' || c == 'E'))
  let rest := body.dropWhile (fun c => !(c == 'e' || c == 'E'))
  match parseDecimal? mant with
  | none => none
  | some m =>
    match rest with
    | [] => some (mkRat (sign * (m.1 : Int)) m.2)
    | _ :: expPart =>
      let enegAndDigits : Bool × List Char :=
        match expPart with
        | '+' :: r => (false, r)
        | '-' :: r => (true, r)
        | r => (false, r)
      let ed := enegAndDigits.2
      if !ed.isEmpty && ed.all Char.isDigit then
        some (if enegAndDigits.1 then
                mkRat (sign * (m.1 : Int)) (m.2 * 10 ^ digitsToNat ed)
              else
                mkRat (sign * (m.1 : Int) * 10 ^ digitsToNat ed) m.2)
      else none

/-- Rust `str::parse::<f32>` (finite decimal fragment), exact over `ℚ`. -/
def parseFloat? (s : String) : Option ℚ :=
  parseFloatChars? s.toList

/-- `parse_progress` from `src/worker/ytdlp.rs`:
reject unless the line contains `"[download]"` and a `'%'`; percent is the
first whitespace token ending in `'%'` with trailing `'%'`s stripped, parsed
as a float (parse failure rejects the line); speed is the first whitespace
token containing `"/s"`, defaulting to `"--"`; eta is the first whitespace
token after the first occurrence of `"ETA"`, defaulting to `"--"`. -/
def parse_progress (line : String) : Option Progress :=
  if !containsSubstring line "[download]" || !containsChar line '%' then none
  else
    match (splitWhitespace line).find? (fun s => endsWithChar s '%') with
    | none => none
    | some tok =>
      match parseFloat? (trimEndPercents tok) with
      | none => none
      | some percent =>
        let speed := ((splitWhitespace line).find?
          (fun s => containsSubstring s "/s")).getD "--"
        let eta :=
          match firstMatchSuffix "ETA".toList line.toList with
          | some suffixChars => ((splitWsAux suffixChars []).headD "--")
          | none => "--"
        some ⟨percent, speed, eta⟩

/-! ## Subprocess download driver, post-stream logic (`src/worker/ytdlp.rs`, `download`) -/

/-- Result of one download task: `Ok(path)` or `Err(message)`
(`color_eyre::Result<PathBuf>` in the source). -/
inductive Outcome where
  | ok (path : String)
  | err (msg : String)
deriving DecidableEq, Repr

/-- The per-line output-path capture of the `download` read loop: a line that
does not decode as progress, does not start with `'['` and contains `'/'`
overwrites the captured final path. -/
def pathCapture (acc : Option String) (line : String) : Option String :=
  if (parse_progress line).isSome then acc
  else if !startsWithChar line '[' && containsChar line '/' then some (trimString line)
  else acc

/-- `final_path` at end of stream, folded over all stdout lines. -/
def finalPathAfter (lines : List String) : Option String :=
  lines.foldl pathCapture none

/-- The end-of-stream logic of `download`: wait for the exit status; bail on a
non-zero exit code; with a zero exit code, bail unless a final path was
captured, otherwise return it.  (`status.success()` is `exit code = 0`.) -/
def downloadFinish (exitCode : Option Int) (finalPath : Option String) :
    Except String String :=
  if exitCode ≠ some 0 then Except.error "yt-dlp exited with non-zero code"
  else
    match finalPath with
    | some p => Except.ok p
    | none => Except.error "Could not determine output file path"

/-! ## Worker pool / command coordinator (`src/worker/mod.rs`, `WorkerPool::run`)

The coordinator is a sequential command loop; each accepted `StartJob` spawns
a tokio task.  We embed it as a labelled small-step transition system.
A `.recv c` label is the coordinator consuming command `c` from the inbound
channel; `.internal` steps are either the coordinator completing a suspended
permit acquisition or one scheduling step of a running download task.

The metadata-fetch path never touches the semaphore or the registry and is
modelled functionally (`fetchFilter`, `applyFormatsReady`); the transition
system covers the download path.  A `StartJob` command carries, as an
environment oracle, the progress lines the subprocess would yield and its
outcome absent cancellation. -/

/-- Outbound `AppEvent`s emitted by the engine. -/
inductive Event where
  | jobStarted (id : Nat)
  | formatsReady (id : Nat) (title : String) (formats : List Format)
  | jobProgress (id : Nat) (p : Progress)
  | jobCompleted (id : Nat) (path : String)
  | jobFailed (id : Nat) (error : String)
deriving DecidableEq, Repr

/-- The terminal event the task emits from the download result
(`Ok(path) ⇒ JobCompleted`, `Err(e) ⇒ JobFailed`). -/
def terminalEvent (id : Nat) : Outcome → Event
  | Outcome.ok path => Event.jobCompleted id path
  | Outcome.err msg => Event.jobFailed id msg

/-- Program counter of one spawned download task:
emit `JobStarted`; run the subprocess read loop; emit the terminal event;
remove the registry entry and drop the permit; done. -/
inductive Phase where
  | emitStarted
  | running
  | emitTerminal
  | removeEntry
  | done
deriving DecidableEq, Repr

/-- One spawned download task.  `pendingLines` are the progress updates the
subprocess will still yield; `outcome` is its result absent cancellation. -/
structure DTask where
  job : Nat
  phase : Phase
  pendingLines : List Progress
  outcome : Outcome
deriving DecidableEq, Repr

/-- Ghost log of cancellation-registry operations (`active_jobs.insert` /
`active_jobs.remove` call sites). -/
inductive RegOp where
  | ins (j : Nat)
  | rem (j : Nat)
deriving DecidableEq, Repr

/-- `RegOp.ins j` recognizer. -/
def isIns (j : Nat) : RegOp → Bool
  | RegOp.ins i => i == j
  | RegOp.rem _ => false

/-- `RegOp.rem j` recognizer. -/
def isRem (j : Nat) : RegOp → Bool
  | RegOp.rem i => i == j
  | RegOp.ins _ => false

/-- Coordinator control state: processing commands (`idle`), suspended inside
`semaphore.acquire_owned().await` for one `StartJob` (`waitingPermit`), or
terminated after `Shutdown` (`stopped`). -/
inductive CoordMode where
  | idle
  | waitingPermit (j : Nat) (pendingLines : List Progress) (outcome : Outcome)
  | stopped
deriving DecidableEq, Repr

/-- Inbound `WorkerCommand`s of the download path. -/
inductive Cmd where
  | startJob (j : Nat) (pendingLines : List Progress) (outcome : Outcome)
  | cancelJob (j : Nat)
  | updateConcurrent (n : Nat)
  | shutdown
deriving DecidableEq, Repr

/-- Step label: command receipt or internal scheduling step. -/
inductive Label where
  | recv (c : Cmd)
  | internal
deriving DecidableEq, Repr

/-- `HashMap::insert` on the cancellation registry (association list
`job id ↦ token-cancelled flag`); a fresh token is not cancelled. -/
def regInsert (j : Nat) (reg : List (Nat × Bool)) : List (Nat × Bool) :=
  (j, false) :: reg.filter (fun e => e.1 ≠ j)

/-- `HashMap::remove` on the cancellation registry. -/
def regRemove (j : Nat) (reg : List (Nat × Bool)) : List (Nat × Bool) :=
  reg.filter (fun e => e.1 ≠ j)

/-- `HashMap::get` on the cancellation registry, yielding the token flag. -/
def regLookup (j : Nat) (reg : List (Nat × Bool)) : Option Bool :=
  (reg.find? (fun e => e.1 == j)).map (fun e => e.2)

/-- `CancelJob`: `if let Some(token) = jobs.get(&id) { token.cancel(); }`. -/
def regCancel (j : Nat) (reg : List (Nat × Bool)) : List (Nat × Bool) :=
  reg.map (fun e => if e.1 == j then (e.1, true) else e)

/-- `Shutdown`: `for token in jobs.values() { token.cancel(); }`. -/
def regCancelAll (reg : List (Nat × Bool)) : List (Nat × Bool) :=
  reg.map (fun e => (e.1, true))

/-- Global state of the embedded engine.  `capacity` is the semaphore's total
permit count (fixed at construction from `config.max_concurrent_downloads`),
`permits` the currently available permits, `events` the outbound channel
transcript, `regLog` the ghost registry-operation log, and `startedIds` the
ghost list of job ids whose `StartJob` was received. -/
structure WState where
  capacity : Nat
  permits : Nat
  mode : CoordMode
  registry : List (Nat × Bool)
  tasks : List DTask
  events : List Event
  regLog : List RegOp
  startedIds : List Nat
deriving Repr

/-- Initial state: semaphore full, nothing running. -/
def init (k : Nat) : WState :=
  { capacity := k, permits := k, mode := CoordMode.idle, registry := [],
    tasks := [], events := [], regLog := [], startedIds := [] }

/-- Small-step semantics of `WorkerPool::run` and its spawned download tasks. -/
inductive Step : WState → Label → WState → Prop where
  /-- `StartJob` with a permit available: acquire it, create and register a
  cancellation token, spawn the task.  (`JobStarted` is emitted by the task
  itself, not by the coordinator.) -/
  | startAcquire (s : WState) (j : Nat) (pend : List Progress) (outc : Outcome)
      (n : Nat) (hm : s.mode = CoordMode.idle) (hp : s.permits = n + 1) :
      Step s (Label.recv (Cmd.startJob j pend outc))
        { s with permits := n,
                 registry := regInsert j s.registry,
                 regLog := s.regLog ++ [RegOp.ins j],
                 tasks := s.tasks ++ [⟨j, Phase.emitStarted, pend, outc⟩],
                 startedIds := s.startedIds ++ [j] }
  /-- `StartJob` with no permit available: the coordinator suspends inside
  `acquire_owned().await`; nothing else happens. -/
  | startWait (s : WState) (j : Nat) (pend : List Progress) (outc : Outcome)
      (hm : s.mode = CoordMode.idle) (hp : s.permits = 0) :
      Step s (Label.recv (Cmd.startJob j pend outc))
        { s with mode := CoordMode.waitingPermit j pend outc,
                 startedIds := s.startedIds ++ [j] }
  /-- A suspended `acquire_owned().await` completes once a permit is free. -/
  | waitAcquire (s : WState) (j : Nat) (pend : List Progress) (outc : Outcome)
      (n : Nat) (hm : s.mode = CoordMode.waitingPermit j pend outc)
      (hp : s.permits = n + 1) :
      Step s Label.internal
        { s with mode := CoordMode.idle,
                 permits := n,
                 registry := regInsert j s.registry,
                 regLog := s.regLog ++ [RegOp.ins j],
                 tasks := s.tasks ++ [⟨j, Phase.emitStarted, pend, outc⟩] }
  /-- `CancelJob(id)`: cancel the registered token if present; fire-and-forget. -/
  | recvCancel (s : WState) (j : Nat) (hm : s.mode = CoordMode.idle) :
      Step s (Label.recv (Cmd.cancelJob j))
        { s with registry := regCancel j s.registry }
  /-- `UpdateConcurrent(n)`: the coordinator's match in `src/worker/mod.rs`
  has no arm for this command; receiving it changes nothing. -/
  | recvUpdate (s : WState) (n : Nat) (hm : s.mode = CoordMode.idle) :
      Step s (Label.recv (Cmd.updateConcurrent n)) s
  /-- `Shutdown`: cancel every registered token, then `break` the loop. -/
  | recvShutdown (s : WState) (hm : s.mode = CoordMode.idle) :
      Step s (Label.recv Cmd.shutdown)
        { s with registry := regCancelAll s.registry, mode := CoordMode.stopped }
  /-- The spawned task's first action: emit `JobStarted` and start the
  subprocess read loop. -/
  | taskEmitStarted (s : WState) (pre post : List DTask) (t : DTask)
      (ht : s.tasks = pre ++ t :: post) (hph : t.phase = Phase.emitStarted) :
      Step s Label.internal
        { s with tasks := pre ++ { t with phase := Phase.running } :: post,
                 events := s.events ++ [Event.jobStarted t.job] }
  /-- Read loop: a progress line decodes, so `JobProgress` is emitted. -/
  | taskProgress (s : WState) (pre post : List DTask) (t : DTask)
      (p : Progress) (rest : List Progress)
      (ht : s.tasks = pre ++ t :: post) (hph : t.phase = Phase.running)
      (hpend : t.pendingLines = p :: rest) :
      Step s Label.internal
        { s with tasks := pre ++ { t with pendingLines := rest } :: post,
                 events := s.events ++ [Event.jobProgress t.job p] }
  /-- Read loop: the `select!` observes the cancelled token, kills the
  subprocess, and the task fails with the cancellation error. -/
  | taskCancelled (s : WState) (pre post : List DTask) (t : DTask)
      (ht : s.tasks = pre ++ t :: post) (hph : t.phase = Phase.running)
      (hc : regLookup t.job s.registry = some true) :
      Step s Label.internal
        { s with tasks := pre ++ { t with phase := Phase.emitTerminal,
                                          outcome := Outcome.err "Download cancelled" } :: post }
  /-- Read loop: end of stream; the task waits for the exit status and its
  result is decided (`downloadFinish`); it proceeds to emit the terminal event. -/
  | taskEndOfStream (s : WState) (pre post : List DTask) (t : DTask)
      (ht : s.tasks = pre ++ t :: post) (hph : t.phase = Phase.running)
      (hpend : t.pendingLines = []) :
      Step s Label.internal
        { s with tasks := pre ++ { t with phase := Phase.emitTerminal } :: post }
  /-- The task emits exactly one terminal event from its result. -/
  | taskEmitTerminal (s : WState) (pre post : List DTask) (t : DTask)
      (ht : s.tasks = pre ++ t :: post) (hph : t.phase = Phase.emitTerminal) :
      Step s Label.internal
        { s with tasks := pre ++ { t with phase := Phase.removeEntry } :: post,
                 events := s.events ++ [terminalEvent t.job t.outcome] }
  /-- The task removes its registry entry; the owned permit is dropped when
  the task body ends, releasing it back to the semaphore. -/
  | taskFinish (s : WState) (pre post : List DTask) (t : DTask)
      (ht : s.tasks = pre ++ t :: post) (hph : t.phase = Phase.removeEntry) :
      Step s Label.internal
        { s with tasks := pre ++ { t with phase := Phase.done } :: post,
                 registry := regRemove t.job s.registry,
                 regLog := s.regLog ++ [RegOp.rem t.job],
                 permits := s.permits + 1 }

/-- States reachable from a freshly constructed pool with ceiling `k`. -/
inductive Reachable (k : Nat) : WState → Prop where
  | base : Reachable k (init k)
  | step {s : WState} {l : Label} {s' : WState} :
      Reachable k s → Step s l s' → Reachable k s'

/-- The caller starts each job id at most once (each `StartJob` uses a fresh
`Job` with a fresh UUID; a single task owns a job's event sequence). -/
def USable (s : WState) (l : Label) : Prop :=
  ∀ j pend outc, l = Label.recv (Cmd.startJob j pend outc) → j ∉ s.startedIds

/-- Reachability along traces in which each job id is started at most once. -/
inductive ReachableU (k : Nat) : WState → Prop where
  | base : ReachableU k (init k)
  | step {s : WState} {l : Label} {s' : WState} :
      ReachableU k s → Step s l s' → USable s l → ReachableU k s'

/-- A task that has not yet finished (its tokio task is still alive, holding
its permit). -/
def notDoneP : Phase → Bool
  | Phase.done => false
  | _ => true

def notDone (t : DTask) : Bool := notDoneP t.phase

/-- Number of live download tasks (permit holders). -/
def activeTasks (s : WState) : Nat := (s.tasks.filter notDone).length

/-- Whether the task currently holds a live yt-dlp subprocess (spawned at the
start of the read loop, reaped before the terminal event is emitted). -/
def holdsSubprocP : Phase → Bool
  | Phase.running => true
  | Phase.emitTerminal => true
  | _ => false

def holdsSubproc (t : DTask) : Bool := holdsSubprocP t.phase

/-- Number of tasks holding a live subprocess. -/
def activeSubprocs (s : WState) : Nat := (s.tasks.filter holdsSubproc).length

/-- Events tagged with job id `j`. -/
def isForJob (j : Nat) : Event → Bool
  | Event.jobStarted i => i == j
  | Event.formatsReady i _ _ => i == j
  | Event.jobProgress i _ => i == j
  | Event.jobCompleted i _ => i == j
  | Event.jobFailed i _ => i == j

/-- The subsequence of the outbound transcript tagged with job id `j`. -/
def eventsFor (j : Nat) (evs : List Event) : List Event :=
  evs.filter (isForJob j)

/-- Number of registry insertions for `j` in the ghost log. -/
def insCount (j : Nat) (log : List RegOp) : Nat :=
  (log.filter (isIns j)).length

/-- Number of registry removals for `j` in the ghost log. -/
def remCount (j : Nat) (log : List RegOp) : Nat :=
  (log.filter (isRem j)).length

/-- `JobStarted` followed by some progress events. -/
def startedTrace (j : Nat) (ps : List Progress) : List Event :=
  Event.jobStarted j :: ps.map (Event.jobProgress j)

/-- A complete per-job transcript: started, progress, one terminal event. -/
def fullTrace (j : Nat) (ps : List Progress) (o : Outcome) : List Event :=
  startedTrace j ps ++ [terminalEvent j o]

/-- Terminal events (`JobCompleted`/`JobFailed`) tagged `j`. -/
def isTerminalFor (j : Nat) : Event → Bool
  | Event.jobCompleted i _ => i == j
  | Event.jobFailed i _ => i == j
  | _ => false

/-- Per-task correspondence between the task's program counter and the
transcript of its job. -/
def taskEventsOk (evs : List Event) (t : DTask) : Prop :=
  match t.phase with
  | Phase.emitStarted => eventsFor t.job evs = []
  | Phase.running => ∃ ps, eventsFor t.job evs = startedTrace t.job ps
  | Phase.emitTerminal => ∃ ps, eventsFor t.job evs = startedTrace t.job ps
  | Phase.removeEntry => ∃ ps, eventsFor t.job evs = fullTrace t.job ps t.outcome
  | Phase.done => ∃ ps, eventsFor t.job evs = fullTrace t.job ps t.outcome

/-- A job id the engine has never touched: no task, no registry operations,
no events. -/
def freshJob (s : WState) (j : Nat) : Prop :=
  (∀ t ∈ s.tasks, t.job ≠ j) ∧ insCount j s.regLog = 0 ∧
    remCount j s.regLog = 0 ∧ eventsFor j s.events = []

/-- Inductive invariant for traces with unique job starts. -/
def InvU (s : WState) : Prop :=
  (∀ t ∈ s.tasks, t.job ∈ s.startedIds) ∧
  (s.tasks.map DTask.job).Nodup ∧
  (∀ j, j ∉ s.startedIds → freshJob s j) ∧
  (∀ j pend outc, s.mode = CoordMode.waitingPermit j pend outc →
     j ∈ s.startedIds ∧ freshJob s j) ∧
  (∀ t ∈ s.tasks, taskEventsOk s.events t ∧
     insCount t.job s.regLog = 1 ∧
     remCount t.job s.regLog = (if t.phase = Phase.done then 1 else 0))

/-! ## Concrete instances used by witnesses and counterexamples -/

/-- Audio-only format record: `vcodec="none"`, `acodec="mp4a.40.2"`. -/
def audioOnlyFmt : Format :=
  { format_id := "140", vcodec := some "none", acodec := some "mp4a.40.2" }

/-- Video format record: `vcodec="avc1"`, `acodec="none"` (with a height). -/
def videoFmt : Format :=
  { format_id := "137", vcodec := some "avc1", acodec := some "none",
    height := some 1080 }

/-- A video-capable format record with no `height` field, as yt-dlp emits for
some video formats; `is_video` holds but `fetch_formats` filters it out. -/
def headlessVideoFmt : Format :=
  { format_id := "311", vcodec := some "avc1", acodec := some "none",
    height := none }

/-- A job freshly created for a URL (as by `Job::new`, with id `1`). -/
def sampleJob : Job :=
  { id := 1, url := "https://example.com/v", title := none,
    status := JobStatus.fetchingFormats, formats := [],
    selected_format := none, output_path := none }

/-- The sample progress update used in witness traces. -/
def wProg : Progress := ⟨50, "1.00MiB/s", "00:01"⟩

/-- Witness trace, state 0: fresh pool with ceiling 1. -/
def c6S0 : WState := init 1

/-- Witness trace, state 1: `StartJob 7` accepted (permit taken, token
registered, task spawned). -/
def c6S1 : WState :=
  { capacity := 1, permits := 0, mode := CoordMode.idle,
    registry := [(7, false)],
    tasks := [⟨7, Phase.emitStarted, [wProg], Outcome.ok "out/video.mp4"⟩],
    events := [], regLog := [RegOp.ins 7], startedIds := [7] }

/-- Witness trace, state 2: the task has emitted `JobStarted`. -/
def c6S2 : WState :=
  { c6S1 with
    tasks := [⟨7, Phase.running, [wProg], Outcome.ok "out/video.mp4"⟩],
    events := [Event.jobStarted 7] }

/-- Witness trace, state 3: one progress line decoded and emitted. -/
def c6S3 : WState :=
  { c6S1 with
    tasks := [⟨7, Phase.running, [], Outcome.ok "out/video.mp4"⟩],
    events := [Event.jobStarted 7, Event.jobProgress 7 wProg] }

/-- Witness trace, state 4: end of stream observed. -/
def c6S4 : WState :=
  { c6S3 with
    tasks := [⟨7, Phase.emitTerminal, [], Outcome.ok "out/video.mp4"⟩] }

/-- Witness trace, state 5: terminal event emitted. -/
def c6S5 : WState :=
  { c6S3 with
    tasks := [⟨7, Phase.removeEntry, [], Outcome.ok "out/video.mp4"⟩],
    events := [Event.jobStarted 7, Event.jobProgress 7 wProg,
               Event.jobCompleted 7 "out/video.mp4"] }

/-- Witness trace, state 6: registry entry removed, permit released, task done. -/
def c6S6 : WState :=
  { capacity := 1, permits := 1, mode := CoordMode.idle, registry := [],
    tasks := [⟨7, Phase.done, [], Outcome.ok "out/video.mp4"⟩],
    events := [Event.jobStarted 7, Event.jobProgress 7 wProg,
               Event.jobCompleted 7 "out/video.mp4"],
    regLog := [RegOp.ins 7, RegOp.rem 7], startedIds := [7] }

/-- A pool with ceiling 3 and one running download, about to receive
`UpdateConcurrent(1)`. -/
def c3State : WState :=
  { capacity := 3, permits := 2, mode := CoordMode.idle,
    registry := [(7, false)],
    tasks := [⟨7, Phase.running, [], Outcome.ok "a/b.mp4"⟩],
    events := [Event.jobStarted 7], regLog := [RegOp.ins 7], startedIds := [7] }

/-- A pool with one registered job, about to receive `Shutdown`. -/
def c9State : WState := { init 1 with registry := [(5, false)] }

/-- `c9State` after the coordinator processes `Shutdown`. -/
def c9StateAfter : WState :=
  { c9State with registry := regCancelAll c9State.registry,
                 mode := CoordMode.stopped }

/-- A concrete format popup over the two sample formats, with the given
audio-only toggle. -/
def samplePopup (b : Bool) : FormatPopupState :=
  { job_index := 0, formats := [audioOnlyFmt, videoFmt], selected := 0,
    scroll_offset := 0, audio_only := b, apply_to_all := false }

/-! ## Helper lemmas -/

theorem length_filter_mono {α : Type} (l : List α) (p q : α → Bool)
    (h : ∀ a, p a = true → q a = true) :
    (l.filter p).length ≤ (l.filter q).length := by
  induction l with
  | nil => simp
  | cons a rest ih =>
    by_cases hp : p a = true
    · simp [List.filter_cons, hp, h a hp]
      omega
    · rcases hq : q a with _ | _
      · simp [List.filter_cons, hp, hq]
        exact ih
      · simp [List.filter_cons, hp, hq]
        omega

theorem length_filter_middle {α : Type} (p : α → Bool) (pre post : List α) (a : α) :
    ((pre ++ a :: post).filter p).length =
      (pre.filter p).length + (if p a then 1 else 0) + (post.filter p).length := by
  rcases h : p a with _ | _
  · simp [List.filter_append, List.filter_cons, h]
  · simp [List.filter_append, List.filter_cons, h]
    omega

/-! ## C8: capability predicates and the two-entry selection example -/

/-- Claim C8: `is_video` holds iff the video codec is present and not the
`"none"` sentinel; `is_audio_only` holds iff `is_video` fails and the audio
codec is present and not `"none"`; on the two-entry list
`[vcodec="none"/acodec="mp4a.40.2", vcodec="avc1"/acodec="none"]` the
audio-only predicate selects exactly the first entry and the video predicate
exactly the second. -/
theorem c8_capability_predicates :
    (∀ f : Format,
      (f.is_video = true ↔ ∃ v, f.vcodec = some v ∧ v ≠ "none") ∧
      (f.is_audio_only = true ↔
        f.is_video = false ∧ ∃ a, f.acodec = some a ∧ a ≠ "none")) ∧
    [audioOnlyFmt, videoFmt].filter Format.is_audio_only = [audioOnlyFmt] ∧
    [audioOnlyFmt, videoFmt].filter Format.is_video = [videoFmt] := by
  refine ⟨fun f => ⟨?_, ?_⟩, by decide, by decide⟩
  · unfold Format.is_video
    rcases f.vcodec with _ | v <;> simp
  · unfold Format.is_audio_only
    rcases f.acodec with _ | a <;> simp

/-! ## C10: the predicates are mutually exclusive -/

/-- Claim C10: no format is both video and audio-only, so a format is in at
most one side of the video / audio-only toggle of `filtered_formats`. -/
theorem c10_video_audio_exclusive :
    (∀ f : Format, ¬(f.is_video = true ∧ f.is_audio_only = true)) ∧
    (∀ (st : FormatPopupState) (f : Format),
      ¬(f ∈ ({ st with audio_only := true } : FormatPopupState).filtered_formats ∧
        f ∈ ({ st with audio_only := false } : FormatPopupState).filtered_formats)) := by
  have hx : ∀ f : Format, ¬(f.is_video = true ∧ f.is_audio_only = true) := by
    intro f ⟨hv, ha⟩
    unfold Format.is_audio_only at ha
    rw [hv] at ha
    simp at ha
  refine ⟨hx, ?_⟩
  intro st f ⟨hA, hV⟩
  unfold FormatPopupState.filtered_formats at hA hV
  simp only [List.mem_filter] at hA hV
  exact hx f ⟨hV.2, hA.2⟩

/-! ## C4: which raw formats reach the emitted FormatsReady list -/

/-- Counterexample to claim C4 as stated: `headlessVideoFmt` is video-capable
(`is_video` holds) but `fetch_formats` does not include it in the emitted
list, because the source filter also requires `height.is_some()`. -/
theorem c4_counterexample :
    ¬(∀ (raw : List Format) (f : Format), f ∈ raw →
        (f ∈ fetchFilter raw ↔ f.is_video = true)) := by
  intro h
  have h2 := (h [headlessVideoFmt] headlessVideoFmt (by simp)).mpr (by decide)
  revert h2
  decide

/-- Claim C4 (amended): a raw format appears in the emitted `FormatsReady`
list iff it is video-capable *and* carries a `height` field. -/
theorem c4_fetch_filter_membership :
    ∀ (raw : List Format) (f : Format),
      f ∈ fetchFilter raw ↔ f ∈ raw ∧ f.is_video = true ∧ f.height.isSome = true := by
  intro raw f
  unfold fetchFilter
  rw [List.mem_filter]
  simp [and_assoc]

/-! ## C2: empty filtered format list means Failed, never Ready [] -/

/-- Claim C2: when a metadata fetch succeeds but its filtered format list is
empty, the `FormatsReady` event it emits drives the job to
`Failed("No formats found")`, and the handler never produces a `Ready` status
with an empty format list. -/
theorem c2_empty_formats_fail (title : String) (raw : List Format) (j : Job)
    (h : fetchFilter raw = []) :
    (formatsReadyUpdate title (fetchFilter raw) j).status =
        JobStatus.failed "No formats found" ∧
      ∀ (title' : String) (fs : List Format) (j' : Job),
        (formatsReadyUpdate title' fs j').status ≠ JobStatus.ready [] := by
  constructor
  · unfold formatsReadyUpdate
    rw [h]
    simp
  · intro title' fs j'
    unfold formatsReadyUpdate
    rcases hfs : fs with _ | ⟨a, rest⟩ <;> simp [hfs]

/-- Witness for C2: a raw list holding only an audio-only record filters to
`[]`, and the handler marks the job `Failed("No formats found")`. -/
theorem c2_empty_formats_fail_witness :
    (formatsReadyUpdate "t" (fetchFilter [audioOnlyFmt]) sampleJob).status =
        JobStatus.failed "No formats found" ∧
      ∀ (title' : String) (fs : List Format) (j' : Job),
        (formatsReadyUpdate title' fs j').status ≠ JobStatus.ready [] :=
  c2_empty_formats_fail "t" [audioOnlyFmt] sampleJob (by decide)

/-! ## C7: end-of-stream exit handling of the download driver -/

/-- Claim C7: after the output stream ends the driver inspects the exit
status; the download returns a path iff the exit code is zero and an output
path line was captured — a non-zero exit, or a zero exit without a captured
path, is an error, and an error outcome is reported as `JobFailed` (so a job
is never reported completed without a known output path). -/
theorem c7_download_finish :
    (∀ (exitCode : Option Int) (fp : Option String),
      (∃ p, downloadFinish exitCode fp = Except.ok p) ↔
        (exitCode = some 0 ∧ fp.isSome = true)) ∧
    (∀ (exitCode : Option Int) (fp : Option String) (p : String),
      downloadFinish exitCode fp = Except.ok p → fp = some p) ∧
    (∀ (j : Nat) (msg : String),
      terminalEvent j (Outcome.err msg) = Event.jobFailed j msg) := by
  refine ⟨?_, ?_, fun _ _ => rfl⟩
  · intro exitCode fp
    unfold downloadFinish
    by_cases hc : exitCode = some 0
    · rcases fp with _ | p <;> simp [hc]
    · simp [hc]
  · intro exitCode fp p h
    unfold downloadFinish at h
    by_cases hc : exitCode = some 0
    · rcases fp with _ | q
      · simp [hc] at h
      · simp [hc] at h
        rw [h]
    · simp [hc] at h

/-! ## C3: UpdateConcurrency handling by the coordinator -/

/-- Code evaluation for claim C3: the coordinator's command match in
`src/worker/mod.rs` has no `UpdateConcurrent` arm and never resizes the
semaphore, so receiving `UpdateConcurrent(n)` leaves the whole state — in
particular the permit-pool capacity — unchanged, for every `n`. -/
theorem c3_update_concurrent_ignored (s : WState) (n : Nat) (s' : WState)
    (h : Step s (Label.recv (Cmd.updateConcurrent n)) s') :
    s'.capacity = s.capacity ∧ s'.permits = s.permits ∧
      s'.registry = s.registry ∧ s'.tasks = s.tasks ∧ s'.events = s.events := by
  cases h
  exact ⟨rfl, rfl, rfl, rfl, rfl⟩

/-- Witness for C3's code evaluation: `UpdateConcurrent(1)` received by a pool
of capacity 3 with a running job leaves capacity 3 and cancels nothing. -/
theorem c3_update_concurrent_ignored_witness :
    c3State.capacity = 3 ∧ c3State.capacity = c3State.capacity ∧
      c3State.permits = c3State.permits ∧ c3State.registry = c3State.registry ∧
      c3State.tasks = c3State.tasks ∧ c3State.events = c3State.events := by
  have h := c3_update_concurrent_ignored c3State 1 c3State
    (Step.recvUpdate c3State 1 rfl)
  exact ⟨rfl, h.1, h.2.1, h.2.2.1, h.2.2.2.1, h.2.2.2.2⟩

/-! ## C9: Shutdown cancels every registered handle and stops the loop -/

theorem regLookup_cancelAll (j : Nat) (b : Bool) (reg : List (Nat × Bool))
    (h : (j, b) ∈ reg) : regLookup j (regCancelAll reg) = some true := by
  induction reg with
  | nil => simp at h
  | cons e rest ih =>
    rcases List.mem_cons.mp h with h | h
    · rw [← h]
      simp [regCancelAll, regLookup]
    · by_cases he : e.1 = j
      · simp [regCancelAll, regLookup, he]
      · have := ih h
        simp [regCancelAll, regLookup, he] at this ⊢
        exact this

/-- Claim C9: processing `Shutdown` signals cancellation on every handle in
the registry at that moment, leaves the coordinator stopped, and no further
command can be processed from the stopped state. -/
theorem c9_shutdown_cancels_all (s s' : WState)
    (h : Step s (Label.recv Cmd.shutdown) s') :
    (∀ j b, (j, b) ∈ s.registry → regLookup j s'.registry = some true) ∧
      s'.mode = CoordMode.stopped ∧
      ∀ (c : Cmd) (s'' : WState), ¬Step s' (Label.recv c) s'' := by
  cases h with
  | recvShutdown hm =>
    refine ⟨?_, rfl, ?_⟩
    · intro j b hmem
      exact regLookup_cancelAll j b s.registry hmem
    · intro c s'' hstep
      cases hstep <;> simp_all

/-- Witness for C9: shutting down a pool with job 5 registered cancels its
token, stops the coordinator, and a subsequent `CancelJob` is not processed. -/
theorem c9_shutdown_cancels_all_witness :
    regLookup 5 c9StateAfter.registry = some true ∧
      c9StateAfter.mode = CoordMode.stopped ∧
      ¬Step c9StateAfter (Label.recv (Cmd.cancelJob 9)) c9StateAfter := by
  have h := c9_shutdown_cancels_all c9State c9StateAfter
    (Step.recvShutdown c9State rfl)
  exact ⟨h.1 5 false (by simp [c9State, init]), h.2.1,
         h.2.2 (Cmd.cancelJob 9) c9StateAfter⟩

/-! ## C1: the concurrency ceiling bounds active subprocesses -/

theorem holdsSubproc_notDone (t : DTask) (h : holdsSubproc t = true) :
    notDone t = true := by
  obtain ⟨job, phase, pending, outcome⟩ := t
  cases phase <;> simp_all [holdsSubproc, holdsSubprocP, notDone, notDoneP]

/-- Main safety invariant of the coordinator: capacity is constant, and the
available permits plus the live (permit-holding) tasks always equal the
ceiling. -/
theorem reachable_capacity_permits (k : Nat) (s : WState) (h : Reachable k s) :
    s.capacity = k ∧ s.permits + activeTasks s = k := by
  induction h with
  | base => simp [init, activeTasks]
  | step hr hst ih =>
    obtain ⟨hc, hp⟩ := ih
    cases hst with
    | startAcquire j pend outc n hm hpn =>
      refine ⟨hc, ?_⟩
      simp only [activeTasks, List.filter_append] at hp ⊢
      simp [notDone, notDoneP] at hp ⊢
      omega
    | startWait j pend outc hm hpn =>
      exact ⟨hc, hp⟩
    | waitAcquire j pend outc n hm hpn =>
      refine ⟨hc, ?_⟩
      simp only [activeTasks, List.filter_append] at hp ⊢
      simp [notDone, notDoneP] at hp ⊢
      omega
    | recvCancel j hm => exact ⟨hc, hp⟩
    | recvUpdate n hm => exact ⟨hc, hp⟩
    | recvShutdown hm => exact ⟨hc, hp⟩
    | taskEmitStarted pre post t ht hph =>
      refine ⟨hc, ?_⟩
      simp only [activeTasks, ht, length_filter_middle] at hp ⊢
      simp [notDone, notDoneP, hph] at hp ⊢
      omega
    | taskProgress pre post t p rest ht hph hpend =>
      refine ⟨hc, ?_⟩
      simp only [activeTasks, ht, length_filter_middle] at hp ⊢
      simp [notDone, notDoneP, hph] at hp ⊢
      omega
    | taskCancelled pre post t ht hph hcreg =>
      refine ⟨hc, ?_⟩
      simp only [activeTasks, ht, length_filter_middle] at hp ⊢
      simp [notDone, notDoneP, hph] at hp ⊢
      omega
    | taskEndOfStream pre post t ht hph hpend =>
      refine ⟨hc, ?_⟩
      simp only [activeTasks, ht, length_filter_middle] at hp ⊢
      simp [notDone, notDoneP, hph] at hp ⊢
      omega
    | taskEmitTerminal pre post t ht hph =>
      refine ⟨hc, ?_⟩
      simp only [activeTasks, ht, length_filter_middle] at hp ⊢
      simp [notDone, notDoneP, hph] at hp ⊢
      omega
    | taskFinish pre post t ht hph =>
      refine ⟨hc, ?_⟩
      simp only [activeTasks, ht, length_filter_middle] at hp ⊢
      simp [notDone, notDoneP, hph] at hp ⊢
      omega

/-- Claim C1: in every reachable state of a pool with ceiling `k`, at most
`k` download tasks hold an active subprocess; and a `StartJob` processed when
no permit is available changes neither the task set nor the emitted events —
it performs no subprocess work and emits nothing until acquisition succeeds. -/
theorem c1_concurrency_ceiling (k : Nat) (s : WState) (hr : Reachable k s) :
    activeSubprocs s ≤ k ∧
      ∀ (j : Nat) (pend : List Progress) (outc : Outcome) (s' : WState),
        Step s (Label.recv (Cmd.startJob j pend outc)) s' → s.permits = 0 →
          s'.tasks = s.tasks ∧ s'.events = s.events := by
  obtain ⟨hc, hp⟩ := reachable_capacity_permits k s hr
  constructor
  · have hmono := length_filter_mono s.tasks holdsSubproc notDone holdsSubproc_notDone
    simp only [activeSubprocs, activeTasks] at *
    omega
  · intro j pend outc s' hstep hzero
    cases hstep with
    | startAcquire _ _ _ n hm hpn => omega
    | startWait _ _ _ hm hpn => exact ⟨rfl, rfl⟩

/-- Witness for C1: the empty pool with ceiling 0 is reachable, holds no
subprocess, and a `StartJob` received there (permits exhausted) suspends
without creating tasks or events. -/
theorem c1_concurrency_ceiling_witness :
    activeSubprocs (init 0) ≤ 0 ∧
      ({ init 0 with mode := CoordMode.waitingPermit 5 [] (Outcome.ok "p") } : WState).tasks
          = (init 0).tasks ∧
      ({ init 0 with mode := CoordMode.waitingPermit 5 [] (Outcome.ok "p") } : WState).events
          = (init 0).events := by
  have h := c1_concurrency_ceiling 0 (init 0) Reachable.base
  have h2 := h.2 5 [] (Outcome.ok "p") _
    (Step.startWait (init 0) 5 [] (Outcome.ok "p") rfl rfl) rfl
  exact ⟨h.1, h2.1, h2.2⟩

/-! ## C5: the progress line parser -/

theorem parse_progress_eq (line : String)
    (h1 : containsSubstring line "[download]" = true)
    (h2 : containsChar line '%' = true) :
    parse_progress line =
      match (splitWhitespace line).find? (fun s => endsWithChar s '%') with
      | none => none
      | some tok =>
        match parseFloat? (trimEndPercents tok) with
        | none => none
        | some percent =>
          some ⟨percent,
            ((splitWhitespace line).find? (fun s => containsSubstring s "/s")).getD "--",
            (match firstMatchSuffix "ETA".toList line.toList with
             | some suffixChars => (splitWsAux suffixChars []).headD "--"
             | none => "--")⟩ := by
  unfold parse_progress
  rw [h1, h2]
  simp

/-- Claim C5: a line parses as a progress update iff it contains the
`"[download]"` marker and a `'%'` and its first whitespace token ending in
`'%'` parses as a float (an unparsable percent yields `none`, not an error);
on success the percent is that parsed value, the speed is the first
whitespace token containing `"/s"` (default `"--"`), and the eta is the token
immediately after the `"ETA"` marker (default `"--"`); in particular
`"[download]  42.0% of 10.00MiB at 1.20MiB/s ETA 00:07"` yields
percent = 42.0, speed = `"1.20MiB/s"`, eta = `"00:07"`, and
`"[info] Extracting URL"` yields no update. -/
theorem c5_parse_progress :
    parse_progress "[download]  42.0% of 10.00MiB at 1.20MiB/s ETA 00:07" =
        some ⟨42, "1.20MiB/s", "00:07"⟩ ∧
    parse_progress "[info] Extracting URL" = none ∧
    (∀ line : String, (parse_progress line).isSome = true ↔
      (containsSubstring line "[download]" = true ∧ containsChar line '%' = true ∧
        ∃ tok, (splitWhitespace line).find? (fun s => endsWithChar s '%') = some tok ∧
          (parseFloat? (trimEndPercents tok)).isSome = true)) ∧
    (∀ (line : String) (pr : Progress), parse_progress line = some pr →
      (∃ tok, (splitWhitespace line).find? (fun s => endsWithChar s '%') = some tok ∧
          parseFloat? (trimEndPercents tok) = some pr.percent) ∧
        pr.speed = ((splitWhitespace line).find?
          (fun s => containsSubstring s "/s")).getD "--" ∧
        pr.eta = (match firstMatchSuffix "ETA".toList line.toList with
                  | some suffixChars => (splitWsAux suffixChars []).headD "--"
                  | none => "--")) := by
  refine ⟨by decide, by decide, ?_, ?_⟩
  · intro line
    rcases h1 : containsSubstring line "[download]" with _ | _
    · unfold parse_progress
      simp [h1]
    · rcases h2 : containsChar line '%' with _ | _
      · unfold parse_progress
        simp [h1, h2]
      · rw [parse_progress_eq line h1 h2]
        rcases h3 : (splitWhitespace line).find? (fun s => endsWithChar s '%') with
          _ | tok
        · simp [h3]
        · rcases h4 : parseFloat? (trimEndPercents tok) with _ | q
          · simp [h3, h4]
          · simp [h3, h4]
  · intro line pr h
    rcases h1 : containsSubstring line "[download]" with _ | _
    · unfold parse_progress at h
      rw [h1] at h
      simp at h
    · rcases h2 : containsChar line '%' with _ | _
      · unfold parse_progress at h
        rw [h1, h2] at h
        simp at h
      · rw [parse_progress_eq line h1 h2] at h
        rcases h3 : (splitWhitespace line).find? (fun s => endsWithChar s '%') with
          _ | tok
        · rw [h3] at h
          simp at h
        · rw [h3] at h
          simp only [] at h
          rcases h4 : parseFloat? (trimEndPercents tok) with _ | q
          · rw [h4] at h
            simp at h
          · rw [h4] at h
            simp only [Option.some.injEq] at h
            subst h
            exact ⟨⟨tok, rfl, h4⟩, rfl, rfl⟩

/-- Witness for C5: the sample line instantiates the success clause of
`c5_parse_progress`. -/
theorem c5_parse_progress_witness :
    (∃ tok, (splitWhitespace "[download]  42.0% of 10.00MiB at 1.20MiB/s ETA 00:07").find?
        (fun s => endsWithChar s '%') = some tok ∧
        parseFloat? (trimEndPercents tok) = some (42 : ℚ)) ∧
      "1.20MiB/s" = ((splitWhitespace "[download]  42.0% of 10.00MiB at 1.20MiB/s ETA 00:07").find?
        (fun s => containsSubstring s "/s")).getD "--" ∧
      "00:07" = (match firstMatchSuffix "ETA".toList
          "[download]  42.0% of 10.00MiB at 1.20MiB/s ETA 00:07".toList with
        | some suffixChars => (splitWsAux suffixChars []).headD "--"
        | none => "--") := by
  have h := c5_parse_progress
  exact h.2.2.2 "[download]  42.0% of 10.00MiB at 1.20MiB/s ETA 00:07"
    ⟨42, "1.20MiB/s", "00:07"⟩ h.1

/-! ## C6: per-job event ordering and registry discipline -/

theorem eventsFor_append (j : Nat) (evs : List Event) (e : Event) :
    eventsFor j (evs ++ [e]) =
      eventsFor j evs ++ (if isForJob j e then [e] else []) := by
  unfold eventsFor
  rw [List.filter_append]
  rcases h : isForJob j e with _ | _ <;> simp [List.filter_cons, h]

theorem eventsFor_append_miss (j : Nat) (evs : List Event) (e : Event)
    (h : isForJob j e = false) : eventsFor j (evs ++ [e]) = eventsFor j evs := by
  rw [eventsFor_append, h]
  simp

theorem eventsFor_append_hit (j : Nat) (evs : List Event) (e : Event)
    (h : isForJob j e = true) : eventsFor j (evs ++ [e]) = eventsFor j evs ++ [e] := by
  rw [eventsFor_append, h]
  simp

theorem insCount_append (j : Nat) (log : List RegOp) (op : RegOp) :
    insCount j (log ++ [op]) =
      insCount j log + (if isIns j op then 1 else 0) := by
  unfold insCount
  rw [List.filter_append]
  rcases h : isIns j op with _ | _ <;> simp [List.filter_cons, h]

theorem remCount_append (j : Nat) (log : List RegOp) (op : RegOp) :
    remCount j (log ++ [op]) =
      remCount j log + (if isRem j op then 1 else 0) := by
  unfold remCount
  rw [List.filter_append]
  rcases h : isRem j op with _ | _ <;> simp [List.filter_cons, h]

theorem isForJob_terminalEvent (j i : Nat) (o : Outcome) :
    isForJob j (terminalEvent i o) = (i == j) := by
  cases o <;> rfl

theorem isIns_ne (j i : Nat) (h : i ≠ j) : isIns j (RegOp.ins i) = false := by
  simp [isIns, h]

theorem isRem_ne (j i : Nat) (h : i ≠ j) : isRem j (RegOp.rem i) = false := by
  simp [isRem, h]

theorem taskEventsOk_append_foreign (evs : List Event) (t : DTask) (e : Event)
    (hok : taskEventsOk evs t) (hne : isForJob t.job e = false) :
    taskEventsOk (evs ++ [e]) t := by
  have hev := eventsFor_append_miss t.job evs e hne
  rcases hph : t.phase with _ | _ | _ | _ | _ <;>
    simp only [taskEventsOk, hph] at hok ⊢ <;> rw [hev] <;> exact hok

theorem mem_middle {α : Type} (pre post : List α) (a : α) :
    a ∈ pre ++ a :: post := by
  simp

theorem mem_of_mem_sides {α : Type} {pre post : List α} {x : α} (a : α)
    (h : x ∈ pre ++ post) : x ∈ pre ++ a :: post := by
  rw [List.mem_append] at h ⊢
  rcases h with h | h
  · exact Or.inl h
  · exact Or.inr (List.mem_cons_of_mem a h)

theorem mem_middle_elim {α : Type} {pre post : List α} {x a : α}
    (h : x ∈ pre ++ a :: post) : x = a ∨ x ∈ pre ++ post := by
  rw [List.mem_append] at h
  rcases h with h | h
  · exact Or.inr (List.mem_append_left _ h)
  · rcases List.mem_cons.mp h with h | h
    · exact Or.inl h
    · exact Or.inr (List.mem_append_right _ h)

theorem nodup_middle_job {pre post : List DTask} {t : DTask}
    (h : ((pre ++ t :: post).map DTask.job).Nodup) :
    ∀ x ∈ pre ++ post, x.job ≠ t.job := by
  rw [List.map_append, List.map_cons, List.nodup_middle, List.nodup_cons] at h
  intro x hx heq
  apply h.1
  rw [← List.map_append]
  exact heq ▸ List.mem_map_of_mem DTask.job hx

theorem nodup_job_update (pre post : List DTask) (t t' : DTask)
    (h : t'.job = t.job) (hnd : ((pre ++ t :: post).map DTask.job).Nodup) :
    ((pre ++ t' :: post).map DTask.job).Nodup := by
  simp only [List.map_append, List.map_cons] at *
  rw [h]
  exact hnd

theorem invU_init (k : Nat) : InvU (init k) := by
  refine ⟨?_, ?_, ?_, ?_, ?_⟩
  · intro t ht
    simp [init] at ht
  · simp [init]
  · intro j hj
    exact ⟨fun t ht => by simp [init] at ht, rfl, rfl, rfl⟩
  · intro j pend outc heq
    simp [init] at heq
  · intro t ht
    simp [init] at ht

theorem isIns_rem (j i : Nat) : isIns j (RegOp.rem i) = false := rfl

theorem isRem_ins (j i : Nat) : isRem j (RegOp.ins i) = false := rfl

theorem invU_step (s : WState) (l : Label) (s' : WState)
    (hstep : Step s l s') (hu : USable s l) (hinv : InvU s) : InvU s' := by
  obtain ⟨hmem, hnodup, hfresh, hwait, htask⟩ := hinv
  cases hstep with
  | startAcquire j pend outc n hm hp =>
    have hju : j ∉ s.startedIds := hu j pend outc rfl
    obtain ⟨hnoTask, hins0, hrem0, hev0⟩ := hfresh j hju
    refine ⟨?_, ?_, ?_, ?_, ?_⟩
    · intro t ht
      rcases List.mem_append.mp ht with ht | ht
      · exact List.mem_append_left _ (hmem t ht)
      · rw [List.mem_singleton.mp ht]
        exact List.mem_append_right _ (List.mem_singleton.mpr rfl)
    · dsimp only
      rw [List.map_append]
      simp only [List.map_cons, List.map_nil]
      rw [List.nodup_append]
      refine ⟨hnodup, List.nodup_singleton _, ?_⟩
      intro a ha hb
      rw [List.mem_singleton] at hb
      subst hb
      rcases List.mem_map.mp ha with ⟨t, htmem, htj⟩
      exact hnoTask t htmem htj
    · intro j' hj'
      have hj'a : j' ∉ s.startedIds := fun h => hj' (List.mem_append_left _ h)
      have hj'b : j' ≠ j := by
        intro h
        exact hj' (List.mem_append_right _ (by rw [h]; exact List.mem_singleton.mpr rfl))
      obtain ⟨h1, h2, h3, h4⟩ := hfresh j' hj'a
      refine ⟨?_, ?_, ?_, h4⟩
      · intro t ht
        rcases List.mem_append.mp ht with ht | ht
        · exact h1 t ht
        · rw [List.mem_singleton.mp ht]
          exact fun hh => hj'b hh.symm
      · dsimp only
        rw [insCount_append, isIns_ne j' j (fun h => hj'b h.symm)]
        simpa using h2
      · dsimp only
        rw [remCount_append, isRem_ins]
        simpa using h3
    · intro j' pend' outc' heq
      dsimp only at heq
      rw [hm] at heq
      cases heq
    · intro t ht
      rcases List.mem_append.mp ht with ht | ht
      · obtain ⟨hok, hic, hrc⟩ := htask t ht
        have hne : t.job ≠ j := hnoTask t ht
        refine ⟨hok, ?_, ?_⟩
        · dsimp only
          rw [insCount_append, isIns_ne t.job j (fun h => hne h.symm)]
          simpa using hic
        · dsimp only
          rw [remCount_append, isRem_ins]
          simpa using hrc
      · rw [List.mem_singleton.mp ht]
        refine ⟨hev0, ?_, ?_⟩
        · dsimp only
          rw [insCount_append]
          simp [isIns, hins0]
        · dsimp only
          rw [remCount_append, isRem_ins]
          simp [hrem0]
  | startWait j pend outc hm hp =>
    have hju : j ∉ s.startedIds := hu j pend outc rfl
    refine ⟨?_, hnodup, ?_, ?_, htask⟩
    · intro t ht
      exact List.mem_append_left _ (hmem t ht)
    · intro j' hj'
      have hj'a : j' ∉ s.startedIds := fun h => hj' (List.mem_append_left _ h)
      exact hfresh j' hj'a
    · intro j' pend' outc' heq
      dsimp only at heq
      cases heq
      exact ⟨List.mem_append_right _ (List.mem_singleton.mpr rfl), hfresh j hju⟩
  | waitAcquire j pend outc n hm hp =>
    have hw := hwait j pend outc hm
    have hjmem : j ∈ s.startedIds := hw.1
    have hnoTask : ∀ t ∈ s.tasks, t.job ≠ j := hw.2.1
    have hins0 : insCount j s.regLog = 0 := hw.2.2.1
    have hrem0 : remCount j s.regLog = 0 := hw.2.2.2.1
    have hev0 : eventsFor j s.events = [] := hw.2.2.2.2
    refine ⟨?_, ?_, ?_, ?_, ?_⟩
    · intro t ht
      rcases List.mem_append.mp ht with ht | ht
      · exact hmem t ht
      · rw [List.mem_singleton.mp ht]
        exact hjmem
    · dsimp only
      rw [List.map_append]
      simp only [List.map_cons, List.map_nil]
      rw [List.nodup_append]
      refine ⟨hnodup, List.nodup_singleton _, ?_⟩
      intro a ha hb
      rw [List.mem_singleton] at hb
      subst hb
      rcases List.mem_map.mp ha with ⟨t, htmem, htj⟩
      exact hnoTask t htmem htj
    · intro j' hj'
      have hj'b : j' ≠ j := fun h => hj' (h ▸ hjmem)
      obtain ⟨h1, h2, h3, h4⟩ := hfresh j' hj'
      refine ⟨?_, ?_, ?_, h4⟩
      · intro t ht
        rcases List.mem_append.mp ht with ht | ht
        · exact h1 t ht
        · rw [List.mem_singleton.mp ht]
          exact fun hh => hj'b hh.symm
      · dsimp only
        rw [insCount_append, isIns_ne j' j (fun h => hj'b h.symm)]
        simpa using h2
      · dsimp only
        rw [remCount_append, isRem_ins]
        simpa using h3
    · intro j' pend' outc' heq
      dsimp only at heq
      cases heq
    · intro t ht
      rcases List.mem_append.mp ht with ht | ht
      · obtain ⟨hok, hic, hrc⟩ := htask t ht
        have hne : t.job ≠ j := hnoTask t ht
        refine ⟨hok, ?_, ?_⟩
        · dsimp only
          rw [insCount_append, isIns_ne t.job j (fun h => hne h.symm)]
          simpa using hic
        · dsimp only
          rw [remCount_append, isRem_ins]
          simpa using hrc
      · rw [List.mem_singleton.mp ht]
        refine ⟨hev0, ?_, ?_⟩
        · dsimp only
          rw [insCount_append]
          simp [isIns, hins0]
        · dsimp only
          rw [remCount_append, isRem_ins]
          simp [hrem0]
  | recvCancel j hm =>
    exact ⟨hmem, hnodup, hfresh, hwait, htask⟩
  | recvUpdate n hm =>
    exact ⟨hmem, hnodup, hfresh, hwait, htask⟩
  | recvShutdown hm =>
    refine ⟨hmem, hnodup, hfresh, ?_, htask⟩
    intro j' pend' outc' heq
    dsimp only at heq
    cases heq
  | taskEmitStarted pre post t ht hph =>
    have htmem : t ∈ s.tasks := by rw [ht]; exact mem_middle _ _ _
    have hsides : ∀ x ∈ pre ++ post, x ∈ s.tasks := by
      intro x hx
      rw [ht]
      exact mem_of_mem_sides t hx
    have hnodupj : ∀ x ∈ pre ++ post, x.job ≠ t.job := by
      apply nodup_middle_job
      rw [← ht]
      exact hnodup
    refine ⟨?_, ?_, ?_, ?_, ?_⟩
    · intro x hx
      rcases mem_middle_elim hx with hx | hx
      · rw [hx]
        exact hmem t htmem
      · exact hmem x (hsides x hx)
    · dsimp only
      exact nodup_job_update pre post t _ rfl (ht ▸ hnodup)
    · intro j' hj'
      obtain ⟨h1, h2, h3, h4⟩ := hfresh j' hj'
      have htj : t.job ≠ j' := h1 t htmem
      refine ⟨?_, h2, h3, ?_⟩
      · intro x hx
        rcases mem_middle_elim hx with hx | hx
        · rw [hx]
          exact htj
        · exact h1 x (hsides x hx)
      · dsimp only
        rw [eventsFor_append_miss _ _ _
          (by simp only [isForJob, beq_eq_false_iff_ne]; omega), h4]
    · intro j' pend' outc' heq
      dsimp only at heq
      obtain ⟨hjm, h1, h2, h3, h4⟩ := hwait j' pend' outc' heq
      have htj : t.job ≠ j' := h1 t htmem
      refine ⟨hjm, ?_, h2, h3, ?_⟩
      · intro x hx
        rcases mem_middle_elim hx with hx | hx
        · rw [hx]
          exact htj
        · exact h1 x (hsides x hx)
      · dsimp only
        rw [eventsFor_append_miss _ _ _
          (by simp only [isForJob, beq_eq_false_iff_ne]; omega), h4]
    · intro x hx
      rcases mem_middle_elim hx with hx | hx
      · obtain ⟨hok, hic, hrc⟩ := htask t htmem
        rw [hx]
        refine ⟨?_, hic, ?_⟩
        · simp only [taskEventsOk, hph] at hok
          dsimp only
          simp only [taskEventsOk]
          rw [eventsFor_append_hit _ _ _ (by simp [isForJob]), hok]
          exact ⟨[], rfl⟩
        · rw [hph] at hrc
          dsimp only
          simpa using hrc
      · obtain ⟨hok, hic, hrc⟩ := htask x (hsides x hx)
        have hxj : x.job ≠ t.job := hnodupj x hx
        refine ⟨?_, hic, hrc⟩
        exact taskEventsOk_append_foreign _ _ _ hok
          (by simp only [isForJob, beq_eq_false_iff_ne]; omega)
  | taskProgress pre post t p rest ht hph hpend =>
    have htmem : t ∈ s.tasks := by rw [ht]; exact mem_middle _ _ _
    have hsides : ∀ x ∈ pre ++ post, x ∈ s.tasks := by
      intro x hx
      rw [ht]
      exact mem_of_mem_sides t hx
    have hnodupj : ∀ x ∈ pre ++ post, x.job ≠ t.job := by
      apply nodup_middle_job
      rw [← ht]
      exact hnodup
    refine ⟨?_, ?_, ?_, ?_, ?_⟩
    · intro x hx
      rcases mem_middle_elim hx with hx | hx
      · rw [hx]
        exact hmem t htmem
      · exact hmem x (hsides x hx)
    · dsimp only
      exact nodup_job_update pre post t _ rfl (ht ▸ hnodup)
    · intro j' hj'
      obtain ⟨h1, h2, h3, h4⟩ := hfresh j' hj'
      have htj : t.job ≠ j' := h1 t htmem
      refine ⟨?_, h2, h3, ?_⟩
      · intro x hx
        rcases mem_middle_elim hx with hx | hx
        · rw [hx]
          exact htj
        · exact h1 x (hsides x hx)
      · dsimp only
        rw [eventsFor_append_miss _ _ _
          (by simp only [isForJob, beq_eq_false_iff_ne]; omega), h4]
    · intro j' pend' outc' heq
      dsimp only at heq
      obtain ⟨hjm, h1, h2, h3, h4⟩ := hwait j' pend' outc' heq
      have htj : t.job ≠ j' := h1 t htmem
      refine ⟨hjm, ?_, h2, h3, ?_⟩
      · intro x hx
        rcases mem_middle_elim hx with hx | hx
        · rw [hx]
          exact htj
        · exact h1 x (hsides x hx)
      · dsimp only
        rw [eventsFor_append_miss _ _ _
          (by simp only [isForJob, beq_eq_false_iff_ne]; omega), h4]
    · intro x hx
      rcases mem_middle_elim hx with hx | hx
      · obtain ⟨hok, hic, hrc⟩ := htask t htmem
        rw [hx]
        refine ⟨?_, hic, ?_⟩
        · simp only [taskEventsOk, hph] at hok
          dsimp only
          simp only [taskEventsOk, hph]
          obtain ⟨ps, hps⟩ := hok
          rw [eventsFor_append_hit _ _ _ (by simp [isForJob]), hps]
          exact ⟨ps ++ [p], by simp [startedTrace]⟩
        · exact hrc
      · obtain ⟨hok, hic, hrc⟩ := htask x (hsides x hx)
        have hxj : x.job ≠ t.job := hnodupj x hx
        refine ⟨?_, hic, hrc⟩
        exact taskEventsOk_append_foreign _ _ _ hok
          (by simp only [isForJob, beq_eq_false_iff_ne]; omega)
  | taskCancelled pre post t ht hph hc =>
    have htmem : t ∈ s.tasks := by rw [ht]; exact mem_middle _ _ _
    have hsides : ∀ x ∈ pre ++ post, x ∈ s.tasks := by
      intro x hx
      rw [ht]
      exact mem_of_mem_sides t hx
    refine ⟨?_, ?_, ?_, ?_, ?_⟩
    · intro x hx
      rcases mem_middle_elim hx with hx | hx
      · rw [hx]
        exact hmem t htmem
      · exact hmem x (hsides x hx)
    · dsimp only
      exact nodup_job_update pre post t _ rfl (ht ▸ hnodup)
    · intro j' hj'
      obtain ⟨h1, h2, h3, h4⟩ := hfresh j' hj'
      have htj : t.job ≠ j' := h1 t htmem
      refine ⟨?_, h2, h3, h4⟩
      intro x hx
      rcases mem_middle_elim hx with hx | hx
      · rw [hx]
        exact htj
      · exact h1 x (hsides x hx)
    · intro j' pend' outc' heq
      dsimp only at heq
      obtain ⟨hjm, h1, h2, h3, h4⟩ := hwait j' pend' outc' heq
      have htj : t.job ≠ j' := h1 t htmem
      refine ⟨hjm, ?_, h2, h3, h4⟩
      intro x hx
      rcases mem_middle_elim hx with hx | hx
      · rw [hx]
        exact htj
      · exact h1 x (hsides x hx)
    · intro x hx
      rcases mem_middle_elim hx with hx | hx
      · obtain ⟨hok, hic, hrc⟩ := htask t htmem
        rw [hx]
        refine ⟨?_, hic, ?_⟩
        · simp only [taskEventsOk, hph] at hok
          dsimp only
          simp only [taskEventsOk]
          exact hok
        · rw [hph] at hrc
          dsimp only
          simpa using hrc
      · exact htask x (hsides x hx)
  | taskEndOfStream pre post t ht hph hpend =>
    have htmem : t ∈ s.tasks := by rw [ht]; exact mem_middle _ _ _
    have hsides : ∀ x ∈ pre ++ post, x ∈ s.tasks := by
      intro x hx
      rw [ht]
      exact mem_of_mem_sides t hx
    refine ⟨?_, ?_, ?_, ?_, ?_⟩
    · intro x hx
      rcases mem_middle_elim hx with hx | hx
      · rw [hx]
        exact hmem t htmem
      · exact hmem x (hsides x hx)
    · dsimp only
      exact nodup_job_update pre post t _ rfl (ht ▸ hnodup)
    · intro j' hj'
      obtain ⟨h1, h2, h3, h4⟩ := hfresh j' hj'
      have htj : t.job ≠ j' := h1 t htmem
      refine ⟨?_, h2, h3, h4⟩
      intro x hx
      rcases mem_middle_elim hx with hx | hx
      · rw [hx]
        exact htj
      · exact h1 x (hsides x hx)
    · intro j' pend' outc' heq
      dsimp only at heq
      obtain ⟨hjm, h1, h2, h3, h4⟩ := hwait j' pend' outc' heq
      have htj : t.job ≠ j' := h1 t htmem
      refine ⟨hjm, ?_, h2, h3, h4⟩
      intro x hx
      rcases mem_middle_elim hx with hx | hx
      · rw [hx]
        exact htj
      · exact h1 x (hsides x hx)
    · intro x hx
      rcases mem_middle_elim hx with hx | hx
      · obtain ⟨hok, hic, hrc⟩ := htask t htmem
        rw [hx]
        refine ⟨?_, hic, ?_⟩
        · simp only [taskEventsOk, hph] at hok
          dsimp only
          simp only [taskEventsOk]
          exact hok
        · rw [hph] at hrc
          dsimp only
          simpa using hrc
      · exact htask x (hsides x hx)
  | taskEmitTerminal pre post t ht hph =>
    have htmem : t ∈ s.tasks := by rw [ht]; exact mem_middle _ _ _
    have hsides : ∀ x ∈ pre ++ post, x ∈ s.tasks := by
      intro x hx
      rw [ht]
      exact mem_of_mem_sides t hx
    have hnodupj : ∀ x ∈ pre ++ post, x.job ≠ t.job := by
      apply nodup_middle_job
      rw [← ht]
      exact hnodup
    refine ⟨?_, ?_, ?_, ?_, ?_⟩
    · intro x hx
      rcases mem_middle_elim hx with hx | hx
      · rw [hx]
        exact hmem t htmem
      · exact hmem x (hsides x hx)
    · dsimp only
      exact nodup_job_update pre post t _ rfl (ht ▸ hnodup)
    · intro j' hj'
      obtain ⟨h1, h2, h3, h4⟩ := hfresh j' hj'
      have htj : t.job ≠ j' := h1 t htmem
      refine ⟨?_, h2, h3, ?_⟩
      · intro x hx
        rcases mem_middle_elim hx with hx | hx
        · rw [hx]
          exact htj
        · exact h1 x (hsides x hx)
      · dsimp only
        rw [eventsFor_append_miss _ _ _
          (by simp only [isForJob_terminalEvent, beq_eq_false_iff_ne]; omega), h4]
    · intro j' pend' outc' heq
      dsimp only at heq
      obtain ⟨hjm, h1, h2, h3, h4⟩ := hwait j' pend' outc' heq
      have htj : t.job ≠ j' := h1 t htmem
      refine ⟨hjm, ?_, h2, h3, ?_⟩
      · intro x hx
        rcases mem_middle_elim hx with hx | hx
        · rw [hx]
          exact htj
        · exact h1 x (hsides x hx)
      · dsimp only
        rw [eventsFor_append_miss _ _ _
          (by simp only [isForJob_terminalEvent, beq_eq_false_iff_ne]; omega), h4]
    · intro x hx
      rcases mem_middle_elim hx with hx | hx
      · obtain ⟨hok, hic, hrc⟩ := htask t htmem
        rw [hx]
        refine ⟨?_, hic, ?_⟩
        · simp only [taskEventsOk, hph] at hok
          dsimp only
          simp only [taskEventsOk]
          obtain ⟨ps, hps⟩ := hok
          rw [eventsFor_append_hit _ _ _
            (by simp [isForJob_terminalEvent]), hps]
          exact ⟨ps, by simp [fullTrace]⟩
        · rw [hph] at hrc
          dsimp only
          simpa using hrc
      · obtain ⟨hok, hic, hrc⟩ := htask x (hsides x hx)
        have hxj : x.job ≠ t.job := hnodupj x hx
        refine ⟨?_, hic, hrc⟩
        exact taskEventsOk_append_foreign _ _ _ hok
          (by simp only [isForJob_terminalEvent, beq_eq_false_iff_ne]; omega)
  | taskFinish pre post t ht hph =>
    have htmem : t ∈ s.tasks := by rw [ht]; exact mem_middle _ _ _
    have hsides : ∀ x ∈ pre ++ post, x ∈ s.tasks := by
      intro x hx
      rw [ht]
      exact mem_of_mem_sides t hx
    have hnodupj : ∀ x ∈ pre ++ post, x.job ≠ t.job := by
      apply nodup_middle_job
      rw [← ht]
      exact hnodup
    refine ⟨?_, ?_, ?_, ?_, ?_⟩
    · intro x hx
      rcases mem_middle_elim hx with hx | hx
      · rw [hx]
        exact hmem t htmem
      · exact hmem x (hsides x hx)
    · dsimp only
      exact nodup_job_update pre post t _ rfl (ht ▸ hnodup)
    · intro j' hj'
      obtain ⟨h1, h2, h3, h4⟩ := hfresh j' hj'
      have htj : t.job ≠ j' := h1 t htmem
      refine ⟨?_, ?_, ?_, h4⟩
      · intro x hx
        rcases mem_middle_elim hx with hx | hx
        · rw [hx]
          exact htj
        · exact h1 x (hsides x hx)
      · dsimp only
        rw [insCount_append, isIns_rem]
        simpa using h2
      · dsimp only
        rw [remCount_append, isRem_ne j' t.job htj]
        simpa using h3
    · intro j' pend' outc' heq
      dsimp only at heq
      obtain ⟨hjm, h1, h2, h3, h4⟩ := hwait j' pend' outc' heq
      have htj : t.job ≠ j' := h1 t htmem
      refine ⟨hjm, ?_, ?_, ?_, h4⟩
      · intro x hx
        rcases mem_middle_elim hx with hx | hx
        · rw [hx]
          exact htj
        · exact h1 x (hsides x hx)
      · dsimp only
        rw [insCount_append, isIns_rem]
        simpa using h2
      · dsimp only
        rw [remCount_append, isRem_ne j' t.job htj]
        simpa using h3
    · intro x hx
      rcases mem_middle_elim hx with hx | hx
      · obtain ⟨hok, hic, hrc⟩ := htask t htmem
        rw [hx]
        refine ⟨?_, ?_, ?_⟩
        · simp only [taskEventsOk, hph] at hok
          dsimp only
          simp only [taskEventsOk]
          exact hok
        · dsimp only
          rw [insCount_append, isIns_rem]
          simpa using hic
        · rw [hph] at hrc
          simp only [reduceCtorEq, if_false] at hrc
          dsimp only
          rw [remCount_append]
          simp [isRem, hrc]
      · obtain ⟨hok, hic, hrc⟩ := htask x (hsides x hx)
        have hxj : x.job ≠ t.job := hnodupj x hx
        refine ⟨hok, ?_, ?_⟩
        · dsimp only
          rw [insCount_append, isIns_rem]
          simpa using hic
        · dsimp only
          rw [remCount_append, isRem_ne x.job t.job (fun h => hxj h.symm)]
          simpa using hrc

theorem reachableU_invU (k : Nat) (s : WState) (h : ReachableU k s) : InvU s := by
  induction h with
  | base => exact invU_init k
  | step hr hst hu ih => exact invU_step _ _ _ hst hu ih

theorem filter_terminal_fullTrace (j : Nat) (ps : List Progress) (o : Outcome) :
    (fullTrace j ps o).filter (isTerminalFor j) = [terminalEvent j o] := by
  unfold fullTrace startedTrace
  rw [List.filter_append, List.filter_cons]
  have h1 : isTerminalFor j (Event.jobStarted j) = false := rfl
  have h2 : (ps.map (Event.jobProgress j)).filter (isTerminalFor j) = [] := by
    rw [List.filter_eq_nil_iff]
    intro e he
    rcases List.mem_map.mp he with ⟨p, _, hpe⟩
    rw [← hpe]
    simp [isTerminalFor]
  have h3 : isTerminalFor j (terminalEvent j o) = true := by
    cases o <;> simp [isTerminalFor, terminalEvent]
  rw [h1, h2]
  simp [h3]

/-- Claim C6: along any trace in which each job id is started at most once,
every download task that has run to completion produced exactly the event
sequence `JobStarted`, then zero or more `JobProgress`, then exactly one
terminal event (`JobCompleted` or `JobFailed` — the cancellation path ends in
`JobFailed("Download cancelled")` and is covered); and its registry entry was
inserted exactly once (at job start) and removed exactly once (at task
completion). -/
theorem c6_job_lifecycle (k : Nat) (s : WState) (hr : ReachableU k s)
    (t : DTask) (ht : t ∈ s.tasks) (hdone : t.phase = Phase.done) :
    (∃ ps : List Progress, eventsFor t.job s.events =
        Event.jobStarted t.job :: ps.map (Event.jobProgress t.job) ++
          [terminalEvent t.job t.outcome]) ∧
      (eventsFor t.job s.events).filter (isTerminalFor t.job) =
        [terminalEvent t.job t.outcome] ∧
      insCount t.job s.regLog = 1 ∧ remCount t.job s.regLog = 1 := by
  obtain ⟨_, _, _, _, htask⟩ := reachableU_invU k s hr
  obtain ⟨hok, hic, hrc⟩ := htask t ht
  simp only [taskEventsOk, hdone] at hok
  obtain ⟨ps, hps⟩ := hok
  rw [hdone] at hrc
  simp at hrc
  refine ⟨⟨ps, by simpa [fullTrace, startedTrace] using hps⟩, ?_, hic, hrc⟩
  rw [hps]
  exact filter_terminal_fullTrace t.job ps t.outcome

/-- Witness for C6: a concrete one-job trace (start, one progress line, end of
stream, completion) reaches `c6S6`, whose transcript for job 7 is
`[JobStarted, JobProgress, JobCompleted]` with one insert and one removal. -/
theorem c6_job_lifecycle_witness :
    (∃ ps : List Progress, eventsFor 7 c6S6.events =
        Event.jobStarted 7 :: ps.map (Event.jobProgress 7) ++
          [terminalEvent 7 (Outcome.ok "out/video.mp4")]) ∧
      (eventsFor 7 c6S6.events).filter (isTerminalFor 7) =
        [terminalEvent 7 (Outcome.ok "out/video.mp4")] ∧
      insCount 7 c6S6.regLog = 1 ∧ remCount 7 c6S6.regLog = 1 := by
  have u0 : USable c6S0
      (Label.recv (Cmd.startJob 7 [wProg] (Outcome.ok "out/video.mp4"))) := by
    intro j p o heq
    simp [c6S0, init]
  have uI : ∀ s : WState, USable s Label.internal := by
    intro s j p o heq
    cases heq
  have h01 : Step c6S0
      (Label.recv (Cmd.startJob 7 [wProg] (Outcome.ok "out/video.mp4"))) c6S1 :=
    Step.startAcquire c6S0 7 [wProg] (Outcome.ok "out/video.mp4") 0 rfl rfl
  have h12 : Step c6S1 Label.internal c6S2 :=
    Step.taskEmitStarted c6S1 [] []
      ⟨7, Phase.emitStarted, [wProg], Outcome.ok "out/video.mp4"⟩ rfl rfl
  have h23 : Step c6S2 Label.internal c6S3 :=
    Step.taskProgress c6S2 [] []
      ⟨7, Phase.running, [wProg], Outcome.ok "out/video.mp4"⟩ wProg [] rfl rfl rfl
  have h34 : Step c6S3 Label.internal c6S4 :=
    Step.taskEndOfStream c6S3 [] []
      ⟨7, Phase.running, [], Outcome.ok "out/video.mp4"⟩ rfl rfl rfl
  have h45 : Step c6S4 Label.internal c6S5 :=
    Step.taskEmitTerminal c6S4 [] []
      ⟨7, Phase.emitTerminal, [], Outcome.ok "out/video.mp4"⟩ rfl rfl
  have h56 : Step c6S5 Label.internal c6S6 :=
    Step.taskFinish c6S5 [] []
      ⟨7, Phase.removeEntry, [], Outcome.ok "out/video.mp4"⟩ rfl rfl
  have hr : ReachableU 1 c6S6 :=
    ReachableU.step (ReachableU.step (ReachableU.step (ReachableU.step
      (ReachableU.step (ReachableU.step ReachableU.base h01 u0) h12 (uI _))
      h23 (uI _)) h34 (uI _)) h45 (uI _)) h56 (uI _)
  exact c6_job_lifecycle 1 c6S6 hr ⟨7, Phase.done, [], Outcome.ok "out/video.mp4"⟩
    (by simp [c6S6]) rfl

/-- Witness for C7: a zero exit with a captured path is the only success, and
an error outcome maps to `JobFailed`, at concrete inputs. -/
theorem c7_download_finish_witness :
    ((∃ p, downloadFinish (some 0) (some "a/b.mp4") = Except.ok p) ↔
      (some (0 : Int) = some 0 ∧ (some "a/b.mp4" : Option String).isSome = true)) ∧
    (some "a/b.mp4" : Option String) = some "a/b.mp4" ∧
    terminalEvent 3 (Outcome.err "boom") = Event.jobFailed 3 "boom" := by
  have h := c7_download_finish
  exact ⟨h.1 (some 0) (some "a/b.mp4"),
         h.2.1 (some 0) (some "a/b.mp4") "a/b.mp4" rfl,
         h.2.2 3 "boom"⟩

/-- Witness for C10: the predicates are exclusive on the sample audio-only
format, and no format is in both sides of the toggle of a concrete popup. -/
theorem c10_video_audio_exclusive_witness :
    ¬(audioOnlyFmt.is_video = true ∧ audioOnlyFmt.is_audio_only = true) ∧
    ¬(videoFmt ∈ ({ samplePopup true with audio_only := true } :
          FormatPopupState).filtered_formats ∧
      videoFmt ∈ ({ samplePopup true with audio_only := false } :
          FormatPopupState).filtered_formats) := by
  have h := c10_video_audio_exclusive
  exact ⟨h.1 audioOnlyFmt, h.2 (samplePopup true) videoFmt⟩
